import Mathlib

/-!
AI-Engine front end (`src/frontend/src/App.js`)

A shallow embedding of the three parts of `App.js` that carry behaviour:

* `formatContent`, the function of `AnalysisResults` that cuts the summary text
  into titled sections of paragraphs and code blocks;
* `handleSubmit` / `handleCardClick`, the submission handlers of `App`;
* `handleQuestionChange`, the keystroke handler with its one-second timer.

JavaScript strings are modelled as lists of characters (`Str`).  Every separator
and pattern the program uses (`"##"`, `"\n"`, the fence marker, `*`, the white
space removed by `trim`) lies in the Basic Multilingual Plane outside the
surrogate range, so a list of code points is cut, searched and trimmed exactly
like the list of UTF-16 code units it stands for.
-/

namespace AIEngine

/-- A JavaScript string, as the list of its characters. -/
abbrev Str := List Char

/-! ## The string methods used by `App.js` -/

/-- Worker of `split` for a non-empty separator: `skip` counts the characters of
a separator occurrence still to be passed over, `acc` holds (reversed) the
characters of the piece being collected. -/
def splitAux (sep : Str) : Str → Nat → Str → List Str
  | [], _, acc => [acc.reverse]
  | _ :: rest, skip + 1, acc => splitAux sep rest skip acc
  | c :: rest, 0, acc =>
    if sep.isPrefixOf (c :: rest) then
      acc.reverse :: splitAux sep rest (sep.length - 1) []
    else
      splitAux sep rest 0 (c :: acc)

/-- `String.prototype.split(sep)` with a string separator and no limit: the
pieces between the occurrences of `sep`, found from left to right without
overlap.  With the empty separator the string is cut into its characters. -/
def split (s sep : Str) : List Str :=
  if sep = [] then s.map (fun c => [c]) else splitAux sep s 0 []

/-- `Array.prototype.filter(Boolean)` on an array of strings: the empty string is
the only falsy one. -/
def filterBoolean (xs : List Str) : List Str :=
  xs.filter (fun x => !x.isEmpty)

/-- `Array.prototype.join(sep)` on an array of strings. -/
def join (xs : List Str) (sep : Str) : Str :=
  sep.intercalate xs

/-- `String.prototype.startsWith(p)`. -/
def startsWith (s p : Str) : Bool :=
  p.isPrefixOf s

/-- `String.prototype.replace(pat, rep)` with a string pattern: only the first
occurrence is replaced. -/
def replace (s pat rep : Str) : Str :=
  match s with
  | [] => if pat = [] then rep else []
  | c :: rest =>
    if pat.isPrefixOf (c :: rest) then rep ++ (c :: rest).drop pat.length
    else c :: replace rest pat rep

/-- Worker of `replaceAll`; `skip` counts the characters of a match still to be
dropped. -/
def replaceAllAux (pat rep : Str) : Str → Nat → Str
  | [], _ => []
  | _ :: rest, skip + 1 => replaceAllAux pat rep rest skip
  | c :: rest, 0 =>
    if pat.isPrefixOf (c :: rest) then
      rep ++ replaceAllAux pat rep rest (pat.length - 1)
    else
      c :: replaceAllAux pat rep rest 0

/-- `String.prototype.replace(/pat/g, rep)` for a regular expression that is a
literal, non-empty text `pat` (here `/\*\*/g` and `/\*/g`): every occurrence,
from left to right without overlap, is replaced. -/
def replaceAll (s pat rep : Str) : Str :=
  replaceAllAux pat rep s 0

/-- The characters `String.prototype.trim` removes: ECMAScript `WhiteSpace` and
`LineTerminator`. -/
def isTrimChar (c : Char) : Bool :=
  let n := c.toNat
  n = 0x09 || n = 0x0A || n = 0x0B || n = 0x0C || n = 0x0D || n = 0x20 ||
  n = 0xA0 || n = 0x1680 || (0x2000 ≤ n && n ≤ 0x200A) || n = 0x2028 ||
  n = 0x2029 || n = 0x202F || n = 0x205F || n = 0x3000 || n = 0xFEFF

/-- `String.prototype.trim()`. -/
def trim (s : Str) : Str :=
  ((s.dropWhile isTrimChar).reverse.dropWhile isTrimChar).reverse

/-! ## `formatContent` -/

/-- What `formatContent` renders for one body line: a `Typography paragraph`
with its text, or a `SyntaxHighlighter` with its `language` prop (`none` is
`undefined`) and its text. -/
inductive Block where
  | Paragraph (text : Str)
  | Code (language : Option Str) (body : Str)
  deriving DecidableEq, Repr

/-- The heading variant of a section: `h5` for the first, `h6` for the others. -/
inductive Variant where
  | h5
  | h6
  deriving DecidableEq, Repr

/-- One `Box` of `formatContent`: the heading and the rendered body lines. -/
structure Section where
  variant : Variant
  title : Str
  blocks : List Block
  deriving DecidableEq, Repr

/-- The array `formatContent` returns. -/
abbrev Document := List Section

/-- The fence marker. -/
def fence : Str := "\x60\x60\x60".toList

/-- The callback of `body.map` (lines 150-168). -/
def renderParagraph (paragraph : Str) : Block :=
  if startsWith paragraph fence then
    -- const [, language, ...code] = paragraph.split("\n")
    let parts := split paragraph ['\n']
    let language := parts[1]?
    let code := parts.drop 2
    let codeContent := trim (replace (join code ['\n']) fence [])
    Block.Code language codeContent
  else
    Block.Paragraph (replaceAll (replaceAll paragraph ['*', '*'] []) ['*'] [])

/-- The callback of `sections.map` (lines 137-171).  `none` is the `TypeError`
raised by `title.trim()` when the destructured `title` is `undefined`. -/
def renderSection (section_ : Str) (index : Nat) : Option Section :=
  match filterBoolean (split section_ ['\n']) with
  | [] => none
  | title :: body =>
    some { variant := if index = 0 then Variant.h5 else Variant.h6
           title := trim title
           blocks := body.map renderParagraph }

/-- `sections.map(callback)` from position `index` on; an exception raised by
the callback ends the whole call. -/
def mapSections : List Str → Nat → Option (List Section)
  | [], _ => some []
  | s :: rest, index =>
    match renderSection s index with
    | none => none
    | some sec =>
      match mapSections rest (index + 1) with
      | none => none
      | some secs => some (sec :: secs)

/-- The fragments of `content`: `content.split("##").filter(Boolean)`. -/
def sections (content : Str) : List Str :=
  filterBoolean (split content ['#', '#'])

/-- `formatContent` (lines 134-172); `none` is a raised `TypeError`. -/
def formatContent (content : Str) : Option Document :=
  mapSections (sections content) 0

/-! ## The state of `App` and its handlers -/

/-- An entry of `central_pages`. -/
structure Page where
  title : Str
  url : Str
  deriving DecidableEq, Repr

/-- The payload `response.data` of a successful analyze call. -/
structure Response where
  summary : Str
  central_pages : List Page
  deriving DecidableEq, Repr

/-- The `content` of a message: the submitted text, or the response payload. -/
inductive Content where
  | text (value : Str)
  | data (value : Response)
  deriving DecidableEq, Repr

/-- An element of `currentConversation.messages`. -/
structure Message where
  content : Content
  isUser : Bool
  deriving DecidableEq, Repr

/-- The object held by `currentConversation`. -/
structure Conversation where
  messages : List Message
  deriving DecidableEq, Repr

/-- The hooks of `App` (lines 226-233): five state cells and the timer ref. -/
structure AppState where
  question : Str
  currentConversation : Conversation
  loading : Bool
  error : Str
  typing : Bool
  typingTimeoutRef : Option Nat
  deriving DecidableEq, Repr

/-- The state of the first render. -/
def initialState : AppState :=
  { question := []
    currentConversation := { messages := [] }
    loading := false
    error := []
    typing := false
    typingTimeoutRef := none }

/-- The body of the request posted to `/analyze`. -/
structure Request where
  question : Str
  deriving DecidableEq, Repr

/-- How the awaited analyze call ends: with a payload, or with an error whose
detail is `err`. -/
inductive Outcome where
  | success (data : Response)
  | failure (err : Str)
  deriving DecidableEq, Repr

/-- The text set by the `catch` branch. -/
def genericError : Str :=
  "An error occurred while processing your request. Please try again.".toList

/-- The expression `cardText || question`: `null` and the empty string are
falsy. -/
def submittedQuestion (cardText : Option Str) (question : Str) : Str :=
  match cardText with
  | none => question
  | some t => if t = [] then question else t

/-- `handleSubmit` up to the `await` (lines 241-249).  `question` is the value
the handler's closure holds; `s` is the state its setters act on. -/
def handleSubmitBegin (question : Str) (cardText : Option Str) (s : AppState) :
    AppState × Request :=
  ({ s with loading := true, error := [] },
   { question := submittedQuestion cardText question })

/-- `handleSubmit` after a fulfilled `await` (lines 250-256 and `finally`),
applied to the state current at that moment. -/
def handleSubmitResolve (submitted : Str) (data : Response) (s : AppState) : AppState :=
  let newMessage : Message := { content := Content.text submitted, isUser := true }
  let newResponse : Message := { content := Content.data data, isUser := false }
  { s with
    currentConversation :=
      { messages := s.currentConversation.messages ++ [newMessage, newResponse] }
    question := []
    loading := false }

/-- `handleSubmit` after a rejected `await` (lines 257-261 and `finally`); the
error itself goes to the console, see `Run.console`. -/
def handleSubmitReject (s : AppState) : AppState :=
  { s with error := genericError, loading := false }

/-- What one complete call of a submission handler leaves behind. -/
structure Run where
  state : AppState
  request : Request
  console : List Str
  deriving DecidableEq, Repr

/-- `handleSubmit(e, cardText)` run to completion with no other event in
between (lines 240-265). -/
def handleSubmit (question : Str) (cardText : Option Str) (outcome : Outcome)
    (s : AppState) : Run :=
  let begun := handleSubmitBegin question cardText s
  match outcome with
  | Outcome.success data =>
    { state := handleSubmitResolve begun.2.question data begun.1
      request := begun.2
      console := [] }
  | Outcome.failure err =>
    { state := handleSubmitReject begun.1
      request := begun.2
      console := [err] }

/-- The form's `onSubmit`: `handleSubmit(e)` in the closure of the current
render, whose `question` is the live input. -/
def onSubmit (outcome : Outcome) (s : AppState) : Run :=
  handleSubmit s.question none outcome s

/-- `handleCardClick(cardText)` (lines 235-238): `setQuestion(cardText)` and then
`handleSubmit(null, cardText)`, whose closure still holds the old `question`. -/
def handleCardClick (cardText : Str) (outcome : Outcome) (s : AppState) : Run :=
  handleSubmit s.question (some cardText) outcome { s with question := cardText }

/-- The texts of `taskCards` (lines 53-58). -/
def taskCards : List Str :=
  [ "Create an illustration for a bakery".toList
  , "Summarize a long document".toList
  , "Thank my interviewer".toList
  , "Explain nostalgia to a kindergartener".toList ]

/-- The phases of the session, read off `loading` and `error`. -/
inductive Phase where
  | Idle
  | Submitting
  | Errored (message : Str)
  deriving DecidableEq, Repr

/-- The phase a state is in: the spinner condition `loading`, then the error
panel condition `error`. -/
def phase (s : AppState) : Phase :=
  if s.loading then Phase.Submitting
  else if s.error = [] then Phase.Idle
  else Phase.Errored s.error

/-- What `Message` shows: the text of a user message, or `AnalysisResults`. -/
inductive Rendered where
  | user (text : Str)
  | analysis (doc : Document) (centralPages : List Page)
  deriving DecidableEq, Repr

/-- The component `Message` (lines 199-223); `none` is a render error. -/
def renderMessage (m : Message) : Option Rendered :=
  match m.isUser, m.content with
  | true, Content.text t => some (Rendered.user t)
  | false, Content.data r =>
    (formatContent r.summary).map (fun doc => Rendered.analysis doc r.central_pages)
  | _, _ => none

/-! ## The typing timer -/

/-- A pending timer of the host: its handle and the time it is due.  All
timers of `App` run the same callback, `setTyping(false)`. -/
structure Timer where
  id : Nat
  fireTime : Nat
  deriving DecidableEq, Repr

/-- The host's timer table; handles are positive and never reused. -/
structure Timers where
  pending : List Timer
  nextId : Nat
  deriving DecidableEq, Repr

/-- The table of a fresh page. -/
def Timers.initial : Timers := { pending := [], nextId := 1 }

/-- `setTimeout(callback, delay)` called at time `now`. -/
def setTimeout (delay now : Nat) (ts : Timers) : Nat × Timers :=
  (ts.nextId,
   { pending := ts.pending ++ [{ id := ts.nextId, fireTime := now + delay }]
     nextId := ts.nextId + 1 })

/-- `clearTimeout(id)`. -/
def clearTimeout (id : Nat) (ts : Timers) : Timers :=
  { ts with pending := ts.pending.filter (fun t => t.id ≠ id) }

/-- The component together with what its handlers reach outside the React
state: the timer table, the console, and the analyze calls still awaited (each
with the `submittedQuestion` its continuation holds).  `completed` is a record
kept for the statements only: the (question, payload) of every call that has
been fulfilled, in the order of fulfilment. -/
structure World where
  app : AppState
  timers : Timers
  console : List Str
  inflight : List Str
  completed : List (Str × Response)
  deriving DecidableEq, Repr

/-- The world of a fresh page. -/
def World.initial : World :=
  { app := initialState, timers := Timers.initial, console := [], inflight := []
    completed := [] }

/-- `handleQuestionChange` (lines 267-276) for an input event carrying `value`
at time `now`. -/
def handleQuestionChange (value : Str) (now : Nat) (w : World) : World :=
  let cleared :=
    match w.app.typingTimeoutRef with
    | some id => if id ≠ 0 then clearTimeout id w.timers else w.timers
    | none => w.timers
  let started := setTimeout 1000 now cleared
  { w with
    app := { w.app with question := value, typing := true
                        typingTimeoutRef := some started.1 }
    timers := started.2 }

/-- The host runs the callback of the pending timer `id`. -/
def timerFires (id : Nat) (w : World) : World :=
  if w.timers.pending.any (fun t => t.id = id) then
    { w with
      app := { w.app with typing := false }
      timers := { w.timers with pending := w.timers.pending.filter (fun t => t.id ≠ id) } }
  else w

/-- The host runs, at time `now`, every timer that is due. -/
def fireDue (now : Nat) (w : World) : World :=
  if w.timers.pending.any (fun t => t.fireTime ≤ now) then
    { w with
      app := { w.app with typing := false }
      timers := { w.timers with
                  pending := w.timers.pending.filter (fun t => ¬ t.fireTime ≤ now) } }
  else w

/-- The world at time `at_`, when the keystrokes `keys` (time and new input
value, in order of time) are delivered to `w`; a timer due at the time of a
keystroke runs before it. -/
def worldAt (at_ : Nat) : List (Nat × Str) → World → World
  | [], w => fireDue at_ w
  | (t, value) :: rest, w =>
    if t ≤ at_ then worldAt at_ rest (handleQuestionChange value t (fireDue t w))
    else fireDue at_ w

/-! ## The event system of the page -/

/-- What can happen to the page. -/
inductive Event where
  | typed (value : Str) (now : Nat)
  | timer (id : Nat)
  | submitted
  | cardClicked (cardText : Str)
  | fulfilled (call : Nat) (data : Response)
  | rejected (call : Nat) (err : Str)
  deriving DecidableEq, Repr

/-- One event.  A submission runs its handler up to the `await` and leaves the
call in flight; `fulfilled` and `rejected` resume the handler of the in-flight
call at position `call` (nothing happens when there is none). -/
def step (w : World) : Event → World
  | Event.typed value now => handleQuestionChange value now w
  | Event.timer id => timerFires id w
  | Event.submitted =>
    let begun := handleSubmitBegin w.app.question none w.app
    { w with app := begun.1, inflight := w.inflight ++ [begun.2.question] }
  | Event.cardClicked cardText =>
    let begun := handleSubmitBegin w.app.question (some cardText)
      { w.app with question := cardText }
    { w with app := begun.1, inflight := w.inflight ++ [begun.2.question] }
  | Event.fulfilled call data =>
    match w.inflight[call]? with
    | none => w
    | some q =>
      { w with
        app := handleSubmitResolve q data w.app
        inflight := w.inflight.eraseIdx call
        completed := w.completed ++ [(q, data)] }
  | Event.rejected call err =>
    match w.inflight[call]? with
    | none => w
    | some _ =>
      { w with
        app := handleSubmitReject w.app
        inflight := w.inflight.eraseIdx call
        console := w.console ++ [err] }

/-- The world after a sequence of events. -/
def run (events : List Event) (w : World) : World :=
  events.foldl step w

/-- The two messages one fulfilled submission appends. -/
def pairOf (p : Str × Response) : List Message :=
  [{ content := Content.text p.1, isUser := true },
   { content := Content.data p.2, isUser := false }]

/-! ## Sample data -/

/-- The summary text of the end-to-end example. -/
def exampleSummary : Str :=
  "## Title\nHello **world**\n```python\nprint(1)\n```\n## Next\nBye".toList

/-- What `formatContent` returns for `exampleSummary`. -/
def exampleDocument : Document :=
  [ { variant := Variant.h5
      title := "Title".toList
      blocks := [ Block.Paragraph "Hello world".toList
                , Block.Code none []
                , Block.Paragraph "print(1)".toList
                , Block.Code none [] ] }
  , { variant := Variant.h6
      title := "Next".toList
      blocks := [ Block.Paragraph "Bye".toList ] } ]

/-- The state in which `What is X?` has been typed into a fresh page. -/
def exampleState : AppState :=
  { initialState with question := "What is X?".toList }

/-- The payload of the submission example. -/
def exampleResponse : Response :=
  { summary := "## A\nB".toList
    central_pages := [{ title := "P".toList, url := "http://x".toList }] }

/-- A burst of keystrokes after one at time `prev`: each comes no earlier than
the one before it and less than 1000 units after it. -/
def burst (prev : Nat) : List (Nat × Str) → Bool
  | [] => true
  | (t, _) :: rest => decide (prev ≤ t) && decide (t < prev + 1000) && burst t rest

/-- The time of the last keystroke of a sequence that starts at time `first`. -/
def lastTime (first : Nat) : List (Nat × Str) → Nat
  | [] => first
  | (t, _) :: rest => lastTime t rest

/-- The messages are the pairs of the fulfilled submissions, in order. -/
def Paired (w : World) : Prop :=
  w.app.currentConversation.messages = w.completed.flatMap pairOf

/-- Every pending timer is the one the ref points to, and handles are
positive. -/
def TimerInv (w : World) : Prop :=
  (∀ tm ∈ w.timers.pending, w.app.typingTimeoutRef = some tm.id) ∧
  w.timers.nextId ≠ 0 ∧
  ∀ id, w.app.typingTimeoutRef = some id → id ≠ 0

/-- The spinner is on and exactly one timer is pending, due at `due`. -/
def Armed (due : Nat) (w : World) : Prop :=
  TimerInv w ∧ w.app.typing = true ∧ ∃ id, w.timers.pending = [{ id := id, fireTime := due }]

/-! ## Lemmas on the string methods -/

theorem splitAux_of_not_infix (sep : Str) (s acc : Str) (h : ¬ sep <:+: s) :
    splitAux sep s 0 acc = [acc.reverse ++ s] := by
  induction s generalizing acc with
  | nil => simp [splitAux]
  | cons c rest ih =>
    have hp : sep.isPrefixOf (c :: rest) = false := by
      rw [Bool.eq_false_iff]
      intro hp
      exact h (List.isPrefixOf_iff_prefix.mp hp).isInfix
    have hr : ¬ sep <:+: rest := fun hr => h (hr.trans (List.suffix_cons c rest).isInfix)
    simp [splitAux, hp, ih _ hr]

theorem split_of_not_infix (sep : Str) (s : Str) (hsep : sep ≠ []) (h : ¬ sep <:+: s) :
    split s sep = [s] := by
  simp [split, hsep, splitAux_of_not_infix sep s [] h]

theorem singleton_isPrefixOf (c d : Char) (rest : Str) :
    [c].isPrefixOf (d :: rest) = (c == d) := by
  simp [List.isPrefixOf]

theorem splitAux_char_free (c : Char) (s acc : Str) (hacc : c ∉ acc) :
    ∀ p ∈ splitAux [c] s 0 acc, c ∉ p := by
  induction s generalizing acc with
  | nil => simpa [splitAux] using hacc
  | cons d rest ih =>
    intro p hp
    by_cases hcd : c = d
    · subst hcd
      simp only [splitAux, singleton_isPrefixOf, beq_self_eq_true, if_true,
        List.length_singleton, Nat.sub_self, List.mem_cons] at hp
      rcases hp with rfl | hp
      · simpa using hacc
      · exact ih [] (by simp) p hp
    · have hb : (c == d) = false := by simpa using hcd
      simp only [splitAux, singleton_isPrefixOf, hb] at hp
      exact ih (d :: acc) (by simp [hcd, hacc]) p hp

theorem split_char_free (c : Char) (s : Str) : ∀ p ∈ split s [c], c ∉ p := by
  intro p hp
  simp only [split, List.cons_ne_nil, if_false] at hp
  exact splitAux_char_free c s [] (by simp) p hp

theorem splitAux_exists_nonempty (c : Char) (s acc : Str)
    (h : acc ≠ [] ∨ ∃ d ∈ s, d ≠ c) : ∃ p ∈ splitAux [c] s 0 acc, p ≠ [] := by
  induction s generalizing acc with
  | nil =>
    rcases h with h | ⟨d, hd, _⟩
    · exact ⟨acc.reverse, by simp [splitAux], by simpa using h⟩
    · simp at hd
  | cons e rest ih =>
    by_cases hce : c = e
    · subst hce
      simp only [splitAux, singleton_isPrefixOf, beq_self_eq_true, if_true,
        List.length_singleton, Nat.sub_self, List.mem_cons]
      by_cases hacc : acc = []
      · have hrest : ∃ d ∈ rest, d ≠ c := by
          rcases h with h | ⟨d, hd, hdc⟩
          · exact absurd hacc h
          · rcases List.mem_cons.mp hd with rfl | hd
            · exact absurd rfl hdc
            · exact ⟨d, hd, hdc⟩
        obtain ⟨p, hp, hne⟩ := ih [] (Or.inr hrest)
        exact ⟨p, Or.inr hp, hne⟩
      · exact ⟨acc.reverse, Or.inl rfl, by simpa using hacc⟩
    · have hb : (c == e) = false := by simpa using hce
      simp only [splitAux, singleton_isPrefixOf, hb]
      exact ih (e :: acc) (Or.inl (by simp))

theorem filterBoolean_split_ne_nil (c : Char) (s : Str) (h : ∃ d ∈ s, d ≠ c) :
    filterBoolean (split s [c]) ≠ [] := by
  obtain ⟨p, hp, hne⟩ := splitAux_exists_nonempty c s [] (Or.inr h)
  intro hnil
  have hmem : p ∈ filterBoolean (split s [c]) := by
    simp only [filterBoolean, split, List.cons_ne_nil, if_false, List.mem_filter]
    refine ⟨hp, ?_⟩
    cases p with
    | nil => exact absurd rfl hne
    | cons a t => rfl
  rw [hnil] at hmem
  simp at hmem

theorem replaceAllAux_star (t : Str) :
    replaceAllAux ['*'] [] t 0 = t.filter (fun c => c ≠ '*') := by
  induction t with
  | nil => simp [replaceAllAux]
  | cons c rest ih =>
    by_cases hc : c = '*'
    · subst hc
      simp [replaceAllAux, List.isPrefixOf, ih]
    · have hb : ('*' == c) = false := by simpa using fun h => hc h.symm
      simp [replaceAllAux, List.isPrefixOf, hb, ih, hc]

theorem replaceAllAux_starstar_match (rest : Str) :
    replaceAllAux ['*', '*'] [] ('*' :: '*' :: rest) 0 = replaceAllAux ['*', '*'] [] rest 0 := by
  simp [replaceAllAux, List.isPrefixOf]

theorem replaceAllAux_starstar_head (c : Char) (rest : Str) (hc : c ≠ '*') :
    replaceAllAux ['*', '*'] [] (c :: rest) 0 = c :: replaceAllAux ['*', '*'] [] rest 0 := by
  have hb : ('*' == c) = false := by simpa using fun h => hc h.symm
  simp [replaceAllAux, List.isPrefixOf, hb]

theorem replaceAllAux_starstar_second (d : Char) (rest : Str) (hd : d ≠ '*') :
    replaceAllAux ['*', '*'] [] ('*' :: d :: rest) 0 =
      '*' :: replaceAllAux ['*', '*'] [] (d :: rest) 0 := by
  have hb : ('*' == d) = false := by simpa using fun h => hd h.symm
  simp [replaceAllAux, List.isPrefixOf, hb]

theorem replaceAllAux_starstar_filter (p : Char → Bool) (hp : p '*' = false) : ∀ s : Str,
    (replaceAllAux ['*', '*'] [] s 0).filter p = s.filter p
  | [] => by simp [replaceAllAux]
  | [c] => by
    by_cases hc : c = '*'
    · subst hc; simp [replaceAllAux, List.isPrefixOf]
    · rw [replaceAllAux_starstar_head c [] hc]; simp [replaceAllAux]
  | c :: d :: rest => by
    have ih1 := replaceAllAux_starstar_filter p hp (d :: rest)
    have ih2 := replaceAllAux_starstar_filter p hp rest
    by_cases hc : c = '*'
    · subst hc
      by_cases hd : d = '*'
      · subst hd
        rw [replaceAllAux_starstar_match]
        simp [List.filter_cons, hp, ih2]
      · rw [replaceAllAux_starstar_second d rest hd]
        simp only [List.filter_cons, ih1]
    · rw [replaceAllAux_starstar_head c _ hc]
      simp only [List.filter_cons, ih1]

theorem replaceAll_stars (s : Str) :
    replaceAll (replaceAll s ['*', '*'] []) ['*'] [] = s.filter (fun c => c ≠ '*') := by
  simp only [replaceAll]
  rw [replaceAllAux_star, replaceAllAux_starstar_filter _ (by simp)]

/-! ## Lemmas on `formatContent` -/

theorem renderParagraph_plain (line : Str) (h : startsWith line fence = false) :
    renderParagraph line = Block.Paragraph (line.filter (fun c => c ≠ '*')) := by
  simp only [renderParagraph, h, Bool.false_eq_true, if_false, replaceAll_stars]

theorem split_newline_self (line : Str) (hnl : '\n' ∉ line) : split line ['\n'] = [line] := by
  apply split_of_not_infix _ _ (by simp)
  intro hinf
  exact hnl (hinf.subset (by simp))

theorem renderParagraph_fence (line : Str) (hnl : '\n' ∉ line)
    (h : startsWith line fence = true) : renderParagraph line = Block.Code none [] := by
  rw [renderParagraph, if_pos h]
  simp [split_newline_self line hnl, join, replace, trim]

theorem mem_lines_newline_free (fragment line : Str)
    (h : line ∈ filterBoolean (split fragment ['\n'])) : '\n' ∉ line := by
  simp only [filterBoolean, List.mem_filter] at h
  exact split_char_free '\n' fragment line h.1

theorem renderSection_eq_some (fragment : Str) (index : Nat) (sec : Section)
    (h : renderSection fragment index = some sec) :
    ∃ title body, filterBoolean (split fragment ['\n']) = title :: body ∧
      sec = { variant := if index = 0 then Variant.h5 else Variant.h6
              title := trim title
              blocks := body.map renderParagraph } := by
  unfold renderSection at h
  split at h
  · exact absurd h (by simp)
  · rename_i title body heq
    exact ⟨title, body, heq, (Option.some.inj h).symm⟩

theorem mapSections_eq_some (frags : List Str) (index : Nat) (doc : Document)
    (h : mapSections frags index = some doc) :
    doc.length = frags.length ∧
    ∀ (i : Nat) (sec : Section), doc[i]? = some sec →
      ∃ fragment, frags[i]? = some fragment ∧ renderSection fragment (index + i) = some sec := by
  induction frags generalizing index doc with
  | nil =>
    simp only [mapSections, Option.some.injEq] at h
    subst h
    simp
  | cons f rest ih =>
    simp only [mapSections] at h
    cases hf : renderSection f index with
    | none => simp [hf] at h
    | some sec0 =>
      cases hr : mapSections rest (index + 1) with
      | none => simp [hf, hr] at h
      | some secs =>
        simp only [hf, hr, Option.some.injEq] at h
        subst h
        obtain ⟨hlen, hall⟩ := ih (index + 1) secs hr
        refine ⟨by simp [hlen], ?_⟩
        intro i sec hi
        cases i with
        | zero =>
          simp only [List.getElem?_cons_zero, Option.some.injEq] at hi
          subst hi
          exact ⟨f, by simp, by simpa using hf⟩
        | succ k =>
          simp only [List.getElem?_cons_succ] at hi
          obtain ⟨fragment, hfr, hrs⟩ := hall k sec hi
          refine ⟨fragment, by simpa using hfr, ?_⟩
          rw [← hrs]
          congr 1
          omega

theorem formatContent_sections (raw : Str) (doc : Document)
    (h : formatContent raw = some doc) :
    doc.length = (sections raw).length ∧
    ∀ (i : Nat) (sec : Section), doc[i]? = some sec → ∃ fragment title body,
      (sections raw)[i]? = some fragment ∧
      filterBoolean (split fragment ['\n']) = title :: body ∧
      sec.title = trim title ∧
      sec.blocks = body.map renderParagraph := by
  obtain ⟨hlen, hall⟩ := mapSections_eq_some (sections raw) 0 doc h
  refine ⟨hlen, ?_⟩
  intro i sec hi
  obtain ⟨fragment, hfr, hrs⟩ := hall i sec hi
  obtain ⟨title, body, hlines, hsec⟩ := renderSection_eq_some fragment _ sec hrs
  exact ⟨fragment, title, body, hfr, hlines, by rw [hsec], by rw [hsec]⟩

/-! ## `formatContent`: the claims -/

/-- C1 (the code departs from it): on the end-to-end example `formatContent`
returns, for the first section, four blocks: the paragraph, an empty code block
without language for the opening fence line, the line `print(1)` as a
paragraph, and a second empty code block for the closing fence line. -/
theorem formatContent_exampleSummary :
    formatContent exampleSummary = some exampleDocument := by
  decide

/-- C2 (the code departs from it): for the text made of one newline the only
fragment has no non-empty line and `formatContent` raises. -/
theorem formatContent_newline_raises : formatContent ['\n'] = none := by
  decide

/-- C5, as stated, fails: the empty string holds no `##`, and `formatContent`
returns the empty array for it, not an array of one section. -/
theorem formatContent_empty_no_section :
    ¬ (['#', '#'] <:+: ([] : Str)) ∧ formatContent [] = some [] ∧
      ¬ ∃ sec, formatContent [] = some [sec] := by
  refine ⟨?_, by decide, ?_⟩
  · intro h
    have := h.length_le
    simp at this
  · rintro ⟨sec, h⟩
    have h0 : formatContent [] = some [] := by decide
    rw [h0] at h
    simp at h

/-- C5, amended: for every text without `##` that holds a character other
than the newline, `formatContent` returns an array of exactly one section, the
`h5` one whose title is the trimmed first non-empty line. -/
theorem formatContent_no_delimiter (raw : Str) (h : ¬ ['#', '#'] <:+: raw)
    (hline : ∃ c ∈ raw, c ≠ '\n') :
    ∃ sec, formatContent raw = some [sec] ∧ sec.variant = Variant.h5 ∧
      (formatContent raw).map List.length = some 1 := by
  have hraw : raw ≠ [] := by
    rintro rfl
    obtain ⟨c, hc, _⟩ := hline
    simp at hc
  have hsec : sections raw = [raw] := by
    rw [sections, split_of_not_infix _ raw (by simp) h]
    cases raw with
    | nil => exact absurd rfl hraw
    | cons a t => rfl
  have hne := filterBoolean_split_ne_nil '\n' raw hline
  cases hl : filterBoolean (split raw ['\n']) with
  | nil => exact absurd hl hne
  | cons title body =>
    refine ⟨{ variant := Variant.h5, title := trim title,
              blocks := body.map renderParagraph }, ?_, rfl, ?_⟩ <;>
    simp [formatContent, hsec, mapSections, renderSection, hl]

/-- Witness of C5, amended: the text `Hi` followed by a blank line. -/
theorem formatContent_no_delimiter_witness :
    ∃ sec, formatContent "Hi\n\n".toList = some [sec] ∧ sec.variant = Variant.h5 ∧
      (formatContent "Hi\n\n".toList).map List.length = some 1 :=
  formatContent_no_delimiter "Hi\n\n".toList (by decide) ⟨'H', by decide, by decide⟩

/-- C7: when `formatContent` returns, the sections are the fragments in order,
and in each section block `j` is the rendering of the `j`-th non-empty line
after the title line; a line that does not start with the fence marker gives
the paragraph whose text is the line without its asterisks.  The two
replacements of the paragraph branch together delete exactly the asterisks. -/
theorem formatContent_paragraphs (raw : Str) (doc : Document)
    (h : formatContent raw = some doc) :
    (doc.length = (sections raw).length ∧
     ∀ (i : Nat) (sec : Section), doc[i]? = some sec → ∃ fragment title body,
       (sections raw)[i]? = some fragment ∧
       filterBoolean (split fragment ['\n']) = title :: body ∧
       sec.blocks.length = body.length ∧
       ∀ (j : Nat) (line : Str), body[j]? = some line →
         sec.blocks[j]? = some (renderParagraph line) ∧
         (startsWith line fence = false →
           sec.blocks[j]? = some (Block.Paragraph (line.filter (fun c => c ≠ '*'))))) ∧
    ∀ line : Str,
      replaceAll (replaceAll line ['*', '*'] []) ['*'] [] = line.filter (fun c => c ≠ '*') ∧
      '*' ∉ line.filter (fun c => c ≠ '*') := by
  obtain ⟨hlen, hall⟩ := formatContent_sections raw doc h
  refine ⟨⟨hlen, ?_⟩, fun line => ⟨replaceAll_stars line, by simp [List.mem_filter]⟩⟩
  intro i sec hi
  obtain ⟨fragment, title, body, hfr, hlines, _, hblocks⟩ := hall i sec hi
  refine ⟨fragment, title, body, hfr, hlines, by simp [hblocks], ?_⟩
  intro j line hj
  have hb : sec.blocks[j]? = some (renderParagraph line) := by
    simp [hblocks, List.getElem?_map, hj]
  exact ⟨hb, fun hs => by rw [hb, renderParagraph_plain line hs]⟩

/-- Witness of C7: the end-to-end example. -/
theorem formatContent_paragraphs_witness :
    formatContent exampleSummary = some exampleDocument ∧
      exampleDocument.length = (sections exampleSummary).length :=
  ⟨by decide, (formatContent_paragraphs exampleSummary exampleDocument (by decide)).1.1⟩

/-- C10: when `formatContent` returns, every body line is free of newlines, so
splitting it again gives the line itself, and every line that starts with the
fence marker is rendered as a code block with no language and empty text. -/
theorem formatContent_fence_lines (raw : Str) (doc : Document)
    (h : formatContent raw = some doc) :
    ∀ (i : Nat) (sec : Section), doc[i]? = some sec → ∃ fragment title body,
      (sections raw)[i]? = some fragment ∧
      filterBoolean (split fragment ['\n']) = title :: body ∧
      sec.blocks.length = body.length ∧
      ∀ (j : Nat) (line : Str), body[j]? = some line →
        split line ['\n'] = [line] ∧
        (startsWith line fence = true → sec.blocks[j]? = some (Block.Code none [])) := by
  obtain ⟨_, hall⟩ := formatContent_sections raw doc h
  intro i sec hi
  obtain ⟨fragment, title, body, hfr, hlines, _, hblocks⟩ := hall i sec hi
  refine ⟨fragment, title, body, hfr, hlines, by simp [hblocks], ?_⟩
  intro j line hj
  have hmem : line ∈ filterBoolean (split fragment ['\n']) := by
    rw [hlines]
    exact List.mem_cons_of_mem _ (List.getElem?_mem hj)
  have hnl := mem_lines_newline_free fragment line hmem
  refine ⟨split_newline_self line hnl, fun hs => ?_⟩
  simp [hblocks, List.getElem?_map, hj, renderParagraph_fence line hnl hs]

/-- Witness of C10: the end-to-end example, whose first section has two fence
lines, both rendered as `Block.Code none []`. -/
theorem formatContent_fence_lines_witness :
    formatContent exampleSummary = some exampleDocument ∧
      ∃ fragment title body,
        (sections exampleSummary)[0]? = some fragment ∧
        filterBoolean (split fragment ['\n']) = title :: body ∧ 4 = body.length :=
  ⟨by decide,
   match formatContent_fence_lines exampleSummary exampleDocument (by decide) 0
     { variant := Variant.h5
       title := "Title".toList
       blocks := [ Block.Paragraph "Hello world".toList, Block.Code none []
                 , Block.Paragraph "print(1)".toList, Block.Code none [] ] }
     (by decide) with
   | ⟨fragment, title, body, hfr, hlines, hlen, _⟩ => ⟨fragment, title, body, hfr, hlines, hlen⟩⟩

/-! ## The submission handlers: the claims -/

/-- C3: from a state in phase `Idle` or `Errored` whose input holds the
non-empty `questionText`, a fulfilled submission posts that text and leaves the
old messages followed by the user message and the assistant message, in this
order; the length grows by 2, the earlier messages keep their positions, the
phase is `Idle` and the input is empty.  The assistant message is shown as
`formatContent` of the summary together with the central pages. -/
theorem onSubmit_success (s : AppState) (questionText : Str) (r : Response)
    (hq : s.question = questionText) (_hne : questionText ≠ [])
    (_hphase : phase s = Phase.Idle ∨ ∃ m, phase s = Phase.Errored m) :
    (onSubmit (Outcome.success r) s).request = { question := questionText } ∧
    (onSubmit (Outcome.success r) s).state.currentConversation.messages =
      s.currentConversation.messages ++
        [{ content := Content.text questionText, isUser := true },
         { content := Content.data r, isUser := false }] ∧
    (onSubmit (Outcome.success r) s).state.currentConversation.messages.length =
      s.currentConversation.messages.length + 2 ∧
    (∀ i : Nat, i < s.currentConversation.messages.length →
      (onSubmit (Outcome.success r) s).state.currentConversation.messages[i]? =
        s.currentConversation.messages[i]?) ∧
    phase (onSubmit (Outcome.success r) s).state = Phase.Idle ∧
    (onSubmit (Outcome.success r) s).state.loading = false ∧
    (onSubmit (Outcome.success r) s).state.error = [] ∧
    (onSubmit (Outcome.success r) s).state.question = [] ∧
    renderMessage { content := Content.data r, isUser := false } =
      (formatContent r.summary).map (fun doc => Rendered.analysis doc r.central_pages) := by
  subst hq
  refine ⟨rfl, rfl, ?_, ?_, rfl, rfl, rfl, rfl, rfl⟩
  · simp [onSubmit, handleSubmit, handleSubmitBegin, handleSubmitResolve]
  · intro i hi
    simp [onSubmit, handleSubmit, handleSubmitBegin, handleSubmitResolve,
      List.getElem?_append_left hi]

/-- Witness of C3: `What is X?` submitted from the fresh page, answered by the
example payload: two messages, the second shown as the one-section document. -/
theorem onSubmit_success_witness :
    (exampleState.question = "What is X?".toList ∧ "What is X?".toList ≠ [] ∧
      phase exampleState = Phase.Idle) ∧
    (onSubmit (Outcome.success exampleResponse) exampleState).state.currentConversation.messages =
      [{ content := Content.text "What is X?".toList, isUser := true },
       { content := Content.data exampleResponse, isUser := false }] ∧
    renderMessage { content := Content.data exampleResponse, isUser := false } =
      some (Rendered.analysis
        [{ variant := Variant.h5, title := "A".toList,
           blocks := [Block.Paragraph "B".toList] }]
        [{ title := "P".toList, url := "http://x".toList }]) :=
  ⟨⟨by decide, by decide, by decide⟩,
   (onSubmit_success exampleState "What is X?".toList exampleResponse (by decide) (by decide)
     (Or.inl (by decide))).2.1,
   by decide⟩

/-- C4: a rejected analyze call leaves the messages as they were and ends in
phase `Errored` with the fixed text `genericError`; the state does not depend
on the error detail, which only reaches the console. -/
theorem handleSubmit_failure (s : AppState) (question : Str) (cardText : Option Str)
    (err : Str) :
    (handleSubmit question cardText (Outcome.failure err) s).state.currentConversation.messages
      = s.currentConversation.messages ∧
    (handleSubmit question cardText (Outcome.failure err) s).state.error = genericError ∧
    (handleSubmit question cardText (Outcome.failure err) s).state.loading = false ∧
    phase (handleSubmit question cardText (Outcome.failure err) s).state
      = Phase.Errored genericError ∧
    (handleSubmit question cardText (Outcome.failure err) s).console = [err] ∧
    ∀ err2 : Str,
      (handleSubmit question cardText (Outcome.failure err2) s).state =
        (handleSubmit question cardText (Outcome.failure err) s).state := by
  refine ⟨rfl, rfl, rfl, ?_, rfl, fun _ => rfl⟩
  simp only [phase, handleSubmit, handleSubmitReject, handleSubmitBegin]
  decide

/-- C9: for a non-empty prompt `p`, `handleCardClick(p)` posts `p` and leaves
the same state, request and console output as the form submission made from
the same state with `p` as the live input, whatever the outcome; the four
prompts of `taskCards` are non-empty. -/
theorem handleCardClick_eq_onSubmit (s : AppState) (p : Str) (outcome : Outcome)
    (hp : p ≠ []) :
    (handleCardClick p outcome s).request = { question := p } ∧
    handleCardClick p outcome s = onSubmit outcome { s with question := p } ∧
    ∀ q ∈ taskCards, q ≠ [] := by
  have hsub : submittedQuestion (some p) s.question = p := by
    simp [submittedQuestion, hp]
  refine ⟨?_, ?_, by decide⟩
  · cases outcome <;> simp [handleCardClick, handleSubmit, handleSubmitBegin, hsub]
  · cases outcome <;>
      simp [handleCardClick, onSubmit, handleSubmit, handleSubmitBegin, submittedQuestion, hp]

/-- Witness of C9: the first card clicked on the fresh page, the call
rejected. -/
theorem handleCardClick_eq_onSubmit_witness :
    "Create an illustration for a bakery".toList ≠ [] ∧
    handleCardClick "Create an illustration for a bakery".toList
        (Outcome.failure "Network Error".toList) initialState =
      onSubmit (Outcome.failure "Network Error".toList)
        { initialState with question := "Create an illustration for a bakery".toList } :=
  ⟨by decide,
   (handleCardClick_eq_onSubmit initialState "Create an illustration for a bakery".toList
     (Outcome.failure "Network Error".toList) (by decide)).2.1⟩

/-! ## The event system: the message log -/

theorem step_paired (w : World) (e : Event) (h : Paired w) : Paired (step w e) := by
  unfold Paired at h ⊢
  cases e with
  | typed value now => simpa [step, handleQuestionChange] using h
  | timer id =>
    simp only [step, timerFires]
    split <;> simpa using h
  | submitted => simpa [step, handleSubmitBegin] using h
  | cardClicked cardText => simpa [step, handleSubmitBegin] using h
  | fulfilled call data =>
    simp only [step]
    cases hq : w.inflight[call]? with
    | none => simpa using h
    | some q => simp [handleSubmitResolve, h, pairOf]
  | rejected call err =>
    simp only [step]
    cases hq : w.inflight[call]? with
    | none => simpa using h
    | some q => simpa [handleSubmitReject] using h

theorem run_paired (events : List Event) (w : World) (h : Paired w) :
    Paired (run events w) := by
  induction events generalizing w with
  | nil => exact h
  | cons e rest ih => exact ih (step w e) (step_paired w e h)

theorem flatMap_pairOf_length (l : List (Str × Response)) :
    (l.flatMap pairOf).length = 2 * l.length := by
  induction l with
  | nil => rfl
  | cons p rest ih => simp [pairOf, ih]; omega

theorem flatMap_pairOf_pair (l : List (Str × Response)) (k : Nat) (p : Str × Response)
    (h : l[k]? = some p) :
    (l.flatMap pairOf)[2 * k]? = some { content := Content.text p.1, isUser := true } ∧
    (l.flatMap pairOf)[2 * k + 1]? = some { content := Content.data p.2, isUser := false } := by
  induction l generalizing k with
  | nil => simp at h
  | cons q rest ih =>
    cases k with
    | zero =>
      simp only [List.getElem?_cons_zero, Option.some.injEq] at h
      subst h
      simp [pairOf]
    | succ n =>
      simp only [List.getElem?_cons_succ] at h
      have h2 : 2 * (n + 1) = (2 * n + 1) + 1 := by omega
      obtain ⟨ha, hb⟩ := ih n h
      rw [h2]
      simp only [List.flatMap_cons, pairOf, List.cons_append, List.nil_append,
        List.getElem?_cons_succ]
      exact ⟨ha, hb⟩

theorem flatMap_pairOf_isUser (l : List (Str × Response)) (i : Nat) (m : Message)
    (h : (l.flatMap pairOf)[i]? = some m) : m.isUser = decide (i % 2 = 0) := by
  induction l generalizing i with
  | nil => simp at h
  | cons q rest ih =>
    simp only [List.flatMap_cons, pairOf, List.cons_append, List.nil_append] at h
    match i, h with
    | 0, h =>
      simp only [List.getElem?_cons_zero, Option.some.injEq] at h
      subst h
      rfl
    | 1, h =>
      simp only [List.getElem?_cons_succ, List.getElem?_cons_zero, Option.some.injEq] at h
      subst h
      rfl
    | n + 2, h =>
      simp only [List.getElem?_cons_succ] at h
      rw [ih n h]
      have : (n + 2) % 2 = n % 2 := by omega
      rw [this]

/-- C6: after any sequence of events from the fresh page, submissions that
overlap included, the messages are the concatenation of the pairs (user
message, assistant message) of the fulfilled submissions, in the order of
fulfilment: the length is even, positions `2k` and `2k + 1` hold the question
and the payload of the `k`-th fulfilled submission, and a message is a user
message exactly at the even positions. -/
theorem messages_paired (events : List Event) :
    (run events World.initial).app.currentConversation.messages =
      (run events World.initial).completed.flatMap pairOf ∧
    (run events World.initial).app.currentConversation.messages.length =
      2 * (run events World.initial).completed.length ∧
    (∀ (k : Nat) (p : Str × Response), (run events World.initial).completed[k]? = some p →
      (run events World.initial).app.currentConversation.messages[2 * k]? =
        some { content := Content.text p.1, isUser := true } ∧
      (run events World.initial).app.currentConversation.messages[2 * k + 1]? =
        some { content := Content.data p.2, isUser := false }) ∧
    ∀ (i : Nat) (m : Message),
      (run events World.initial).app.currentConversation.messages[i]? = some m →
        m.isUser = decide (i % 2 = 0) := by
  have h : Paired (run events World.initial) := run_paired events World.initial rfl
  unfold Paired at h
  rw [h]
  exact ⟨rfl, flatMap_pairOf_length _, flatMap_pairOf_pair _, flatMap_pairOf_isUser _⟩

/-! ## The typing timer -/

theorem timerInv_initial : TimerInv World.initial := by
  refine ⟨?_, by decide, ?_⟩
  · intro tm htm
    simp [World.initial, Timers.initial] at htm
  · intro id hid
    simp [World.initial, initialState] at hid

theorem cleared_pending (w : World) (h : TimerInv w) :
    (match w.app.typingTimeoutRef with
      | some id => if id ≠ 0 then clearTimeout id w.timers else w.timers
      | none => w.timers) = { pending := [], nextId := w.timers.nextId } := by
  obtain ⟨hpend, _, hpos⟩ := h
  cases href : w.app.typingTimeoutRef with
  | none =>
    have hnil : w.timers.pending = [] := by
      apply List.eq_nil_iff_forall_not_mem.mpr
      intro tm htm
      have := hpend tm htm
      rw [href] at this
      exact absurd this (by simp)
    simp only
    rw [← hnil]
  | some id =>
    have hid : id ≠ 0 := hpos id href
    simp only [if_pos hid, clearTimeout]
    congr 1
    apply List.filter_eq_nil_iff.mpr
    intro tm htm
    have := hpend tm htm
    rw [href] at this
    simp [Option.some.inj this]

theorem handleQuestionChange_eq (w : World) (h : TimerInv w) (value : Str) (now : Nat) :
    handleQuestionChange value now w =
      { w with
        app := { w.app with question := value, typing := true
                            typingTimeoutRef := some w.timers.nextId }
        timers := { pending := [{ id := w.timers.nextId, fireTime := now + 1000 }]
                    nextId := w.timers.nextId + 1 } } := by
  unfold handleQuestionChange
  rw [cleared_pending w h]
  simp [setTimeout]

theorem handleQuestionChange_armed (w : World) (h : TimerInv w) (value : Str) (now : Nat) :
    Armed (now + 1000) (handleQuestionChange value now w) := by
  rw [handleQuestionChange_eq w h]
  refine ⟨⟨?_, ?_, ?_⟩, rfl, ⟨w.timers.nextId, rfl⟩⟩
  · intro tm htm
    simp only [List.mem_singleton] at htm
    subst htm
    rfl
  · simp
  · intro id hid
    simp only [Option.some.injEq] at hid
    subst hid
    exact h.2.1

theorem timerInv_filter (w : World) (h : TimerInv w) (typing : Bool) (p : Timer → Bool) :
    TimerInv { w with
      app := { w.app with typing := typing }
      timers := { w.timers with pending := w.timers.pending.filter p } } := by
  obtain ⟨hpend, hnext, hpos⟩ := h
  exact ⟨fun tm htm => hpend tm (List.mem_filter.mp htm).1, hnext, hpos⟩

theorem timerInv_fireDue (now : Nat) (w : World) (h : TimerInv w) :
    TimerInv (fireDue now w) := by
  unfold fireDue
  split
  · exact timerInv_filter w h false _
  · exact h

theorem timerInv_step (w : World) (e : Event) (h : TimerInv w) : TimerInv (step w e) := by
  cases e with
  | typed value now => exact (handleQuestionChange_armed w h value now).1
  | timer id =>
    simp only [step, timerFires]
    split
    · exact timerInv_filter w h false _
    · exact h
  | submitted => exact h
  | cardClicked cardText => exact h
  | fulfilled call data =>
    simp only [step]
    cases hq : w.inflight[call]? with
    | none => exact h
    | some q => exact h
  | rejected call err =>
    simp only [step]
    cases hq : w.inflight[call]? with
    | none => exact h
    | some q => exact h

theorem timerInv_run (events : List Event) (w : World) (h : TimerInv w) :
    TimerInv (run events w) := by
  induction events generalizing w with
  | nil => exact h
  | cons e rest ih => exact ih (step w e) (timerInv_step w e h)

theorem fireDue_armed_before (due now : Nat) (w : World) (h : Armed due w) (hlt : now < due) :
    fireDue now w = w := by
  obtain ⟨_, _, id, hpend⟩ := h
  have : ¬ due ≤ now := by omega
  simp [fireDue, hpend, this]

theorem fireDue_armed_after (due now : Nat) (w : World) (h : Armed due w) (hle : due ≤ now) :
    (fireDue now w).app.typing = false := by
  obtain ⟨_, _, id, hpend⟩ := h
  simp [fireDue, hpend, hle]

theorem lastTime_ge (prev : Nat) (keys : List (Nat × Str)) (h : burst prev keys = true) :
    prev ≤ lastTime prev keys := by
  induction keys generalizing prev with
  | nil => exact Nat.le_refl _
  | cons k rest ih =>
    obtain ⟨t, v⟩ := k
    simp only [burst, Bool.and_eq_true, decide_eq_true_eq] at h
    exact Nat.le_trans h.1.1 (ih t h.2)

theorem worldAt_armed (at_ prev : Nat) (keys : List (Nat × Str)) (w : World)
    (hw : Armed (prev + 1000) w) (h : burst prev keys = true) :
    (worldAt at_ keys w).app.typing = true ↔ at_ < lastTime prev keys + 1000 := by
  induction keys generalizing prev w with
  | nil =>
    simp only [worldAt, lastTime]
    by_cases hlt : at_ < prev + 1000
    · rw [fireDue_armed_before _ _ w hw hlt]
      exact ⟨fun _ => hlt, fun _ => hw.2.1⟩
    · rw [fireDue_armed_after _ _ w hw (by omega)]
      simp [hlt]
  | cons k rest ih =>
    obtain ⟨t, v⟩ := k
    have hb := h
    simp only [burst, Bool.and_eq_true, decide_eq_true_eq] at hb
    obtain ⟨⟨hle, hlt⟩, hrest⟩ := hb
    have hlast := lastTime_ge t rest hrest
    simp only [worldAt, lastTime]
    by_cases hat : t ≤ at_
    · rw [if_pos hat, fireDue_armed_before _ _ w hw hlt]
      exact ih t _ (handleQuestionChange_armed w hw.1 v t) hrest
    · rw [if_neg hat, fireDue_armed_before _ _ w hw (by omega)]
      exact ⟨fun _ => by omega, fun _ => hw.2.1⟩

/-- C8, as stated, fails: with keystrokes at times 0 and 2000 the timer of the
first one runs at time 1000, and at time 1500, between the first keystroke and
1000 units after the last, `typing` is false. -/
theorem typing_false_between_keystrokes :
    (0 ≤ 1500 ∧ 1500 < 2000 + 1000) ∧
    (worldAt 1500 [(0, "a".toList), (2000, "ab".toList)] World.initial).app.typing = false := by
  decide

/-- C8, amended: in every state the page can reach, a keystroke at time `now`
leaves `typing` true and exactly one pending timer, due at `now + 1000`, the
one the ref points to.  For keystrokes each of which comes less than 1000
units after the one before it, `typing` is true at every time from the first
keystroke to just before 1000 units after the last one, and false from then
on. -/
theorem typing_debounced (events : List Event) :
    (∀ (value : Str) (now : Nat),
      (handleQuestionChange value now (run events World.initial)).app.typing = true ∧
      ∃ id,
        (handleQuestionChange value now (run events World.initial)).app.typingTimeoutRef
          = some id ∧
        (handleQuestionChange value now (run events World.initial)).timers.pending
          = [{ id := id, fireTime := now + 1000 }]) ∧
    ∀ (first : Nat) (value : Str) (rest : List (Nat × Str)) (at_ : Nat),
      burst first rest = true → first ≤ at_ →
        ((worldAt at_ ((first, value) :: rest) (run events World.initial)).app.typing = true ↔
          at_ < lastTime first rest + 1000) := by
  have hinv := timerInv_run events World.initial timerInv_initial
  constructor
  · intro value now
    rw [handleQuestionChange_eq _ hinv]
    exact ⟨rfl, _, rfl, rfl⟩
  · intro first value rest at_ hb hle
    simp only [worldAt, if_pos hle]
    exact worldAt_armed at_ first rest _
      (handleQuestionChange_armed _ (timerInv_fireDue first _ hinv) value first) hb

/-- Witness of C8, amended: keystrokes at times 0 and 500 on the fresh page;
`typing` is still true at time 1499 and the one pending timer is due at 1500. -/
theorem typing_debounced_witness :
    burst 0 [(500, "ab".toList)] = true ∧
    ((worldAt 1499 [(0, "a".toList), (500, "ab".toList)] World.initial).app.typing = true ↔
      1499 < lastTime 0 [(500, "ab".toList)] + 1000) ∧
    (worldAt 1499 [(0, "a".toList), (500, "ab".toList)] World.initial).timers.pending =
      [{ id := 2, fireTime := 1500 }] :=
  ⟨by decide,
   (typing_debounced []).2 0 "a".toList [(500, "ab".toList)] 1499 (by decide) (by decide),
   by decide⟩

end AIEngine
